import Mathlib

/-!
Shallow embedding of the token ledger contract in
`src/contracts/hello-world/src/{lib.rs, storage.rs, errors.rs}`.

Modelling choices:
* Account identities (`Address`) are opaque comparable ids, modelled as `Nat`.
* `i128` amounts are `Int` together with explicit range checks mirroring
  Rust's `checked_add` / `checked_sub`.
* The contract storage (instance + persistent) is one explicit `Ledger`
  record.  `Balance(a)` and `Allowance(o,s)` keys are association lists so
  that presence/absence of a record (zero-pruning) is observable.
* Each public operation is a function `Ledger → ... → Except TokenError Unit × Ledger`
  returning the result together with the store as left by the sequential
  execution of the Rust body (writes that happened before an early error
  return are visible in the returned state).
* `require_auth` aborts are host-level and opaque to the contract; the
  embedding models the authorized execution of each call.
* Committed (transactional) execution is `commit`: the Soroban host
  discards the effects of an invocation that returns an error, so a failed
  call leaves the committed state unchanged.
-/

set_option maxRecDepth 8000

/-- Account identity: opaque, comparable (soroban `Address`). -/
abbrev Addr := Nat

/-- Error taxonomy from `src/errors.rs` (codes 1..9). -/
inductive TokenError where
  | AlreadyInitialized
  | InvalidAmount
  | InsufficientBalance
  | InsufficientAllowance
  | NotInitialized
  | InvalidDecimals
  | OverflowError
  | InvalidRecipient
  | InvalidMetadata
deriving DecidableEq, Repr

/-- Numeric code of each error, as declared in `src/errors.rs`. -/
def TokenError.code : TokenError → Nat
  | .AlreadyInitialized => 1
  | .InvalidAmount => 2
  | .InsufficientBalance => 3
  | .InsufficientAllowance => 4
  | .NotInitialized => 5
  | .InvalidDecimals => 6
  | .OverflowError => 7
  | .InvalidRecipient => 8
  | .InvalidMetadata => 9

/-- Operation results are comparable. -/
instance : DecidableEq (Except TokenError Unit) := fun a b =>
  match a, b with
  | .ok (), .ok () => isTrue rfl
  | .ok (), .error _ => isFalse (fun h => Except.noConfusion h)
  | .error _, .ok () => isFalse (fun h => Except.noConfusion h)
  | .error e1, .error e2 =>
    if h : e1 = e2 then isTrue (by rw [h]) else isFalse (fun hh => h (Except.error.inj hh))

/-- Lower bound of Rust `i128`. -/
def I128_MIN : Int := -(2 ^ 127)

/-- Upper bound of Rust `i128`. -/
def I128_MAX : Int := 2 ^ 127 - 1

/-- Rust `i128::checked_add`: `some` of the sum when it is representable. -/
def checked_add (a b : Int) : Option Int :=
  if I128_MIN ≤ a + b ∧ a + b ≤ I128_MAX then some (a + b) else none

/-- Rust `i128::checked_sub`: `some` of the difference when representable. -/
def checked_sub (a b : Int) : Option Int :=
  if I128_MIN ≤ a - b ∧ a - b ≤ I128_MAX then some (a - b) else none

/-- Lookup in an association list (a `get` on a storage key). -/
def mlookup [DecidableEq α] : List (α × Int) → α → Option Int
  | [], _ => none
  | (a, v) :: t, k => if a = k then some v else mlookup t k

/-- Read with default 0, i.e. `get(key).unwrap_or(0)`. -/
def mget [DecidableEq α] (l : List (α × Int)) (k : α) : Int :=
  (mlookup l k).getD 0

/-- Whether a record for the key is stored (`has`). -/
def mhas [DecidableEq α] (l : List (α × Int)) (k : α) : Bool :=
  (mlookup l k).isSome

/-- Remove the record for a key (`remove(key)`). -/
def mdel [DecidableEq α] (l : List (α × Int)) (k : α) : List (α × Int) :=
  l.filter (fun p => p.1 ≠ k)

/-- Store a value under a key (`set(key, value)`). -/
def mset [DecidableEq α] (l : List (α × Int)) (k : α) (v : Int) : List (α × Int) :=
  (k, v) :: mdel l k

/-- The contract's whole storage: persistent keys `Balance(a)` and
`Allowance(o,s)`, and the instance singletons of `src/storage.rs`.
`Option` is absence/presence of the instance key; the `Initialized` key is
tracked by presence, hence a `Bool`. -/
structure Ledger where
  balances : List (Addr × Int)
  allowances : List ((Addr × Addr) × Int)
  totalSupply : Option Int
  admin : Option Addr
  tokenName : Option String
  tokenSymbol : Option String
  decimals : Option Nat
  initialized : Bool
deriving DecidableEq, Repr

/-- A ledger on which no operation has ever run. -/
def Ledger.empty : Ledger :=
  { balances := []
    allowances := []
    totalSupply := none
    admin := none
    tokenName := none
    tokenSymbol := none
    decimals := none
    initialized := false }

namespace TokenBDB

/-- Maximum decimals (`MAX_DECIMALS` in `lib.rs`). -/
def MAX_DECIMALS : Nat := 18

/-- Maximum name length (`MAX_NAME_LENGTH`). -/
def MAX_NAME_LENGTH : Nat := 100

/-- Maximum symbol length (`MAX_SYMBOL_LENGTH`). -/
def MAX_SYMBOL_LENGTH : Nat := 32

/-- `balance`: stored value or 0, never fails (`lib.rs` lines 275-279). -/
def balance (s : Ledger) (account : Addr) : Int :=
  mget s.balances account

/-- `allowance`: stored value or 0, never fails (`lib.rs` lines 400-404). -/
def allowance (s : Ledger) (owner spender : Addr) : Int :=
  mget s.allowances (owner, spender)

/-- `initialize` (`lib.rs` lines 111-161). -/
def initialize_ (s : Ledger) (admin : Addr) (nm sym : String) (dec : Nat) :
    Except TokenError Unit × Ledger :=
  if s.initialized then (.error .AlreadyInitialized, s)
  else if dec > MAX_DECIMALS then (.error .InvalidDecimals, s)
  else if nm.length = 0 ∨ nm.length > MAX_NAME_LENGTH then (.error .InvalidMetadata, s)
  else if sym.length = 0 ∨ sym.length > MAX_SYMBOL_LENGTH then (.error .InvalidMetadata, s)
  else
    (.ok (),
      { s with
        admin := some admin
        tokenName := some nm
        tokenSymbol := some sym
        decimals := some dec
        totalSupply := some 0
        initialized := true })

/-- `mint` (`lib.rs` lines 163-217).  The recipient's balance is written
before the total-supply checked addition, exactly as in the source. -/
def mint (s : Ledger) (to_ : Addr) (amount : Int) : Except TokenError Unit × Ledger :=
  if ¬ s.initialized then (.error .NotInitialized, s)
  else match s.admin with
  | none => (.error .NotInitialized, s)
  | some _a =>
    if amount ≤ 0 then (.error .InvalidAmount, s)
    else match checked_add (balance s to_) amount with
    | none => (.error .OverflowError, s)
    | some new_balance =>
      let s1 := { s with balances := mset s.balances to_ new_balance }
      match checked_add (s1.totalSupply.getD 0) amount with
      | none => (.error .OverflowError, s1)
      | some new_total => (.ok (), { s1 with totalSupply := some new_total })

/-- `burn` (`lib.rs` lines 219-273).  The holder's balance is written (or
pruned at zero) before the total-supply checked subtraction. -/
def burn (s : Ledger) (owner : Addr) (amount : Int) : Except TokenError Unit × Ledger :=
  if ¬ s.initialized then (.error .NotInitialized, s)
  else if amount ≤ 0 then (.error .InvalidAmount, s)
  else
    let bal := balance s owner
    if bal < amount then (.error .InsufficientBalance, s)
    else
      let new_balance := bal - amount
      let s1 := if new_balance = 0 then { s with balances := mdel s.balances owner }
                else { s with balances := mset s.balances owner new_balance }
      match checked_sub (s1.totalSupply.getD 0) amount with
      | none => (.error .OverflowError, s1)
      | some new_total => (.ok (), { s1 with totalSupply := some new_total })

/-- `transfer` (`lib.rs` lines 281-349).  All checks precede all writes. -/
def transfer (s : Ledger) (owner to_ : Addr) (amount : Int) :
    Except TokenError Unit × Ledger :=
  if ¬ s.initialized then (.error .NotInitialized, s)
  else if amount ≤ 0 then (.error .InvalidAmount, s)
  else if owner = to_ then (.error .InvalidRecipient, s)
  else
    let from_balance := balance s owner
    if from_balance < amount then (.error .InsufficientBalance, s)
    else
      let new_from_balance := from_balance - amount
      match checked_add (balance s to_) amount with
      | none => (.error .OverflowError, s)
      | some new_to_balance =>
        let s1 := if new_from_balance = 0 then { s with balances := mdel s.balances owner }
                  else { s with balances := mset s.balances owner new_from_balance }
        (.ok (), { s1 with balances := mset s1.balances to_ new_to_balance })

/-- `approve` (`lib.rs` lines 351-398).  Zero revokes by removing the record. -/
def approve (s : Ledger) (owner spender : Addr) (amount : Int) :
    Except TokenError Unit × Ledger :=
  if ¬ s.initialized then (.error .NotInitialized, s)
  else if amount < 0 then (.error .InvalidAmount, s)
  else if amount = 0 then
    (.ok (), { s with allowances := mdel s.allowances (owner, spender) })
  else
    (.ok (), { s with allowances := mset s.allowances (owner, spender) amount })

/-- `transfer_from` (`lib.rs` lines 406-499).  The allowance check comes
before the balance check; all checks precede all writes. -/
def transfer_from (s : Ledger) (spender owner to_ : Addr) (amount : Int) :
    Except TokenError Unit × Ledger :=
  if ¬ s.initialized then (.error .NotInitialized, s)
  else if amount ≤ 0 then (.error .InvalidAmount, s)
  else if owner = to_ then (.error .InvalidRecipient, s)
  else
    let allowed := allowance s owner spender
    if allowed < amount then (.error .InsufficientAllowance, s)
    else
      let from_balance := balance s owner
      if from_balance < amount then (.error .InsufficientBalance, s)
      else
        let new_from_balance := from_balance - amount
        match checked_add (balance s to_) amount with
        | none => (.error .OverflowError, s)
        | some new_to_balance =>
          let new_allowance := allowed - amount
          let s1 := if new_from_balance = 0 then { s with balances := mdel s.balances owner }
                    else { s with balances := mset s.balances owner new_from_balance }
          let s2 := { s1 with balances := mset s1.balances to_ new_to_balance }
          let s3 := if new_allowance = 0 then
                      { s2 with allowances := mdel s2.allowances (owner, spender) }
                    else
                      { s2 with allowances := mset s2.allowances (owner, spender) new_allowance }
          (.ok (), s3)

/-- Getter `name` (`lib.rs` lines 502-511): empty string before initialization. -/
def name (s : Ledger) : String :=
  if ¬ s.initialized then "" else s.tokenName.getD ""

/-- Getter `symbol` (`lib.rs` lines 513-521). -/
def symbol (s : Ledger) : String :=
  if ¬ s.initialized then "" else s.tokenSymbol.getD ""

/-- Getter `decimals` (`lib.rs` lines 523-531). -/
def decimals (s : Ledger) : Nat :=
  if ¬ s.initialized then 0 else s.decimals.getD 0

/-- Getter `total_supply` (`lib.rs` lines 533-537). -/
def total_supply (s : Ledger) : Int :=
  s.totalSupply.getD 0

/-- Getter `admin` (`lib.rs` lines 539-543): the source calls
`.expect("Admin not initialized")`, an unrecoverable panic when the key is
absent; `none` models that fatal abort. -/
def admin (s : Ledger) : Option Addr :=
  s.admin

end TokenBDB

/-- One public mutating call together with its arguments. -/
inductive OpCall where
  | initialize_ (admin : Addr) (nm sym : String) (dec : Nat)
  | mint (to_ : Addr) (amount : Int)
  | burn (owner : Addr) (amount : Int)
  | transfer (owner to_ : Addr) (amount : Int)
  | approve (owner spender : Addr) (amount : Int)
  | transfer_from (spender owner to_ : Addr) (amount : Int)
deriving DecidableEq, Repr

/-- Dispatch one call against a state. -/
def runOp (s : Ledger) : OpCall → Except TokenError Unit × Ledger
  | .initialize_ a nm sym dec => TokenBDB.initialize_ s a nm sym dec
  | .mint t amt => TokenBDB.mint s t amt
  | .burn o amt => TokenBDB.burn s o amt
  | .transfer o t amt => TokenBDB.transfer s o t amt
  | .approve o sp amt => TokenBDB.approve s o sp amt
  | .transfer_from sp o t amt => TokenBDB.transfer_from s sp o t amt

/-- Whether a call result is a success. -/
def isOk : Except TokenError Unit → Bool
  | .ok _ => true
  | .error _ => false

/-- Committed effect of one invocation: the Soroban host discards every
storage effect of an invocation that returns an error, so a failed call
leaves the committed ledger unchanged. -/
def commit (s : Ledger) (c : OpCall) : Ledger :=
  match runOp s c with
  | (Except.ok _, s') => s'
  | (Except.error _, _) => s

/-- Committed state after a sequence of public calls. -/
def runTrace : Ledger → List OpCall → Ledger
  | s, [] => s
  | s, c :: cs => runTrace (commit s c) cs

/-- A state is reachable when some sequence of public calls, starting from
the fresh ledger, commits to it. -/
def Reachable (s : Ledger) : Prop :=
  ∃ cs : List OpCall, runTrace Ledger.empty cs = s

/-- Whether the call is an initialization call. -/
def isInitCall : OpCall → Bool
  | .initialize_ .. => true
  | _ => false

/-- Whether some initialization call in the sequence succeeded. -/
def initSucceeded : Ledger → List OpCall → Bool
  | _, [] => false
  | s, c :: cs => (isInitCall c && isOk (runOp s c).1) || initSucceeded (commit s c) cs

/-- Unfold a successful `checked_add`. -/
theorem checked_add_eq_some {a b c : Int} (h : checked_add a b = some c) :
    c = a + b ∧ I128_MIN ≤ a + b ∧ a + b ≤ I128_MAX := by
  unfold checked_add at h
  split at h
  · rename_i hr
    exact ⟨(Option.some.injEq _ _ ▸ h).symm, hr.1, hr.2⟩
  · exact absurd h (by simp)

/-- Unfold a successful `checked_sub`. -/
theorem checked_sub_eq_some {a b c : Int} (h : checked_sub a b = some c) :
    c = a - b ∧ I128_MIN ≤ a - b ∧ a - b ≤ I128_MAX := by
  unfold checked_sub at h
  split at h
  · rename_i hr
    exact ⟨(Option.some.injEq _ _ ▸ h).symm, hr.1, hr.2⟩
  · exact absurd h (by simp)

/-- A `checked_add` of in-range arguments succeeds exactly on the range test. -/
theorem checked_add_some_iff {a b : Int} (h : I128_MIN ≤ a + b ∧ a + b ≤ I128_MAX) :
    checked_add a b = some (a + b) := by
  unfold checked_add
  simp [h.1, h.2]

/-- Deleting a key from a cons. -/
theorem mdel_cons [DecidableEq α] (a : α) (v : Int) (t : List (α × Int)) (k : α) :
    mdel ((a, v) :: t) k = if a = k then mdel t k else (a, v) :: mdel t k := by
  by_cases h : a = k <;> simp [mdel, List.filter_cons, h]

/-- Lookup after delete. -/
theorem mlookup_mdel [DecidableEq α] (l : List (α × Int)) (k k' : α) :
    mlookup (mdel l k) k' = if k' = k then none else mlookup l k' := by
  induction l with
  | nil => by_cases h : k' = k <;> simp [mdel, mlookup, h]
  | cons p t ih =>
    obtain ⟨a, v⟩ := p
    rw [mdel_cons]
    by_cases hak : a = k
    · subst hak
      rw [if_pos rfl, ih]
      by_cases h : k' = a
      · simp [h]
      · simp [mlookup, h, Ne.symm h]
    · rw [if_neg hak]
      by_cases h : k' = k
      · subst h
        simp [mlookup, ih, hak]
      · by_cases hak' : a = k' <;> simp [mlookup, ih, h, hak']

/-- Lookup after store. -/
theorem mlookup_mset [DecidableEq α] (l : List (α × Int)) (k k' : α) (v : Int) :
    mlookup (mset l k v) k' = if k = k' then some v else mlookup l k' := by
  by_cases h : k = k'
  · subst h
    simp [mset, mlookup]
  · simp [mset, mlookup, h, mlookup_mdel, Ne.symm h]

/-- Read after store. -/
theorem mget_mset [DecidableEq α] (l : List (α × Int)) (k k' : α) (v : Int) :
    mget (mset l k v) k' = if k = k' then v else mget l k' := by
  by_cases h : k = k' <;> simp [mget, mlookup_mset, h]

/-- Read after delete. -/
theorem mget_mdel [DecidableEq α] (l : List (α × Int)) (k k' : α) :
    mget (mdel l k) k' = if k' = k then 0 else mget l k' := by
  by_cases h : k' = k <;> simp [mget, mlookup_mdel, h]

/-- After a delete the record is gone. -/
theorem mhas_mdel_self [DecidableEq α] (l : List (α × Int)) (k : α) :
    mhas (mdel l k) k = false := by
  simp [mhas, mlookup_mdel]

/-- Deleting twice deletes once. -/
theorem mdel_mdel [DecidableEq α] (l : List (α × Int)) (k : α) :
    mdel (mdel l k) k = mdel l k := by
  induction l with
  | nil => rfl
  | cons p t ih =>
    obtain ⟨a, v⟩ := p
    by_cases h : a = k <;> simp [mdel_cons, h, ih]

/-- Entries surviving a delete come from the original list. -/
theorem mem_of_mem_mdel [DecidableEq α] {l : List (α × Int)} {k : α} {p : α × Int}
    (h : p ∈ mdel l k) : p ∈ l :=
  List.mem_of_mem_filter h

/-- A found entry is in the list. -/
theorem mlookup_mem [DecidableEq α] {l : List (α × Int)} {k : α} {v : Int}
    (h : mlookup l k = some v) : (k, v) ∈ l := by
  induction l with
  | nil => simp [mlookup] at h
  | cons p t ih =>
    obtain ⟨a, w⟩ := p
    by_cases hak : a = k
    · subst hak
      simp [mlookup] at h
      simp [h]
    · simp [mlookup, hak] at h
      exact List.mem_cons_of_mem _ (ih h)

/-- Reads from a positive-valued map are non-negative. -/
theorem mget_nonneg [DecidableEq α] {l : List (α × Int)} (hpos : ∀ p ∈ l, 0 < p.2)
    (k : α) : 0 ≤ mget l k := by
  unfold mget
  cases hl : mlookup l k with
  | none => simp
  | some v => simpa using le_of_lt (hpos _ (mlookup_mem hl))

/-- Sum of all stored values of a record map. -/
def msum (l : List (α × Int)) : Int :=
  (l.map Prod.snd).sum

/-- Well-formed record map: at most one record per key. -/
def WFmap (l : List (α × Int)) : Prop :=
  (l.map Prod.fst).Nodup

/-- Sum of a cons. -/
theorem msum_cons (p : α × Int) (l : List (α × Int)) : msum (p :: l) = p.2 + msum l := by
  simp [msum]

/-- Lookup of an absent key. -/
theorem mlookup_not_mem [DecidableEq α] {l : List (α × Int)} {k : α}
    (h : k ∉ l.map Prod.fst) : mlookup l k = none := by
  induction l with
  | nil => rfl
  | cons p t ih =>
    obtain ⟨a, v⟩ := p
    simp only [List.map_cons, List.mem_cons] at h
    push_neg at h
    simp [mlookup, Ne.symm h.1, ih h.2]

/-- Deleting an absent key changes nothing. -/
theorem mdel_not_mem [DecidableEq α] {l : List (α × Int)} {k : α}
    (h : k ∉ l.map Prod.fst) : mdel l k = l := by
  induction l with
  | nil => rfl
  | cons p t ih =>
    obtain ⟨a, v⟩ := p
    simp only [List.map_cons, List.mem_cons] at h
    push_neg at h
    rw [mdel_cons, if_neg (Ne.symm h.1), ih h.2]

/-- Deleting a key removes exactly its stored value from the sum. -/
theorem msum_mdel [DecidableEq α] (l : List (α × Int)) (k : α) (h : WFmap l) :
    msum (mdel l k) = msum l - mget l k := by
  induction l with
  | nil => simp [mdel, msum, mget, mlookup]
  | cons p t ih =>
    obtain ⟨a, v⟩ := p
    simp only [WFmap, List.map_cons, List.nodup_cons] at h
    rw [mdel_cons]
    by_cases hak : a = k
    · subst hak
      rw [mdel_not_mem h.1, msum_cons]
      simp [mget, mlookup]
    · rw [if_neg hak, msum_cons, msum_cons, ih h.2]
      have hg : mget ((a, v) :: t) k = mget t k := by simp [mget, mlookup, hak]
      rw [hg]
      ring

/-- Storing a value replaces the old stored value in the sum. -/
theorem msum_mset [DecidableEq α] (l : List (α × Int)) (k : α) (v : Int) (h : WFmap l) :
    msum (mset l k v) = msum l - mget l k + v := by
  rw [mset, msum_cons, msum_mdel l k h]
  ring

/-- Deletion preserves well-formedness. -/
theorem WFmap_mdel [DecidableEq α] {l : List (α × Int)} (k : α) (h : WFmap l) :
    WFmap (mdel l k) :=
  List.Nodup.sublist (List.Sublist.map _ (List.filter_sublist l)) h

/-- Store preserves well-formedness. -/
theorem WFmap_mset [DecidableEq α] {l : List (α × Int)} (k : α) (v : Int) (h : WFmap l) :
    WFmap (mset l k v) := by
  simp only [WFmap, mset, List.map_cons, List.nodup_cons]
  refine ⟨?_, WFmap_mdel k h⟩
  intro hmem
  obtain ⟨p, hp, hpk⟩ := List.mem_map.mp hmem
  simp only [mdel, List.mem_filter, decide_eq_true_eq] at hp
  exact hp.2 hpk

/-- Inductive invariant of committed ledger states: record maps are
duplicate-free, stored balances and allowances are strictly positive
(zero-valued records are pruned), the supply counter equals the sum of the
stored balances, an uninitialized ledger is empty, and an initialized one
has an admin. -/
structure LedgerInv (s : Ledger) : Prop where
  wf_bal : WFmap s.balances
  wf_alw : WFmap s.allowances
  bal_pos : ∀ p ∈ s.balances, 0 < p.2
  alw_pos : ∀ p ∈ s.allowances, 0 < p.2
  supply_sum : TokenBDB.total_supply s = msum s.balances
  uninit : s.initialized = false →
    s.balances = [] ∧ s.allowances = [] ∧ s.totalSupply = none ∧ s.admin = none
  admin_some : s.initialized = true → s.admin.isSome = true

/-- The fresh ledger satisfies the invariant. -/
theorem Inv_empty : LedgerInv Ledger.empty := by
  constructor <;> simp [Ledger.empty, WFmap, msum, TokenBDB.total_supply]

/-- A successful mint preserves the invariant. -/
theorem Inv_mint {s : Ledger} (hinv : LedgerInv s) (to_ : Addr) (amount : Int)
    (h : (TokenBDB.mint s to_ amount).1 = .ok ()) :
    LedgerInv (TokenBDB.mint s to_ amount).2 := by
  unfold TokenBDB.mint at h ⊢
  by_cases h1 : s.initialized
  case neg => simp [h1] at h
  cases ha : s.admin with
  | none => simp [h1, ha] at h
  | some a =>
  by_cases h2 : amount ≤ 0
  case pos => simp [h1, ha, h2] at h
  cases hc : checked_add (TokenBDB.balance s to_) amount with
  | none => simp [h1, ha, h2, hc] at h
  | some nb =>
  cases hc2 : checked_add (s.totalSupply.getD 0) amount with
  | none => simp [h1, ha, h2, hc, hc2] at h
  | some nt =>
  simp only [h1, ha, h2, hc, hc2, not_true_eq_false, if_false, ite_false]
  obtain ⟨hnb, _, _⟩ := checked_add_eq_some hc
  obtain ⟨hnt, _, _⟩ := checked_add_eq_some hc2
  push_neg at h2
  refine ⟨?_, ?_, ?_, ?_, ?_, ?_, ?_⟩
  · exact WFmap_mset _ _ hinv.wf_bal
  · exact hinv.wf_alw
  · intro p hp
    rcases List.mem_cons.mp hp with hp1 | hp2
    · subst hp1
      simp only [hnb]
      have := mget_nonneg hinv.bal_pos to_
      simp only [TokenBDB.balance] at *
      omega
    · exact hinv.bal_pos p (mem_of_mem_mdel hp2)
  · exact hinv.alw_pos
  · have hs := hinv.supply_sum
    simp only [TokenBDB.total_supply] at hs ⊢
    rw [msum_mset _ _ _ hinv.wf_bal, hnt, hnb]
    simp only [TokenBDB.balance, Option.getD_some] at *
    omega
  · intro hfalse
    simp at hfalse
  · intro _
    simp

/-- A successful burn preserves the invariant. -/
theorem Inv_burn {s : Ledger} (hinv : LedgerInv s) (owner : Addr) (amount : Int)
    (h : (TokenBDB.burn s owner amount).1 = .ok ()) :
    LedgerInv (TokenBDB.burn s owner amount).2 := by
  unfold TokenBDB.burn at h ⊢
  by_cases h1 : s.initialized
  case neg => simp [h1] at h
  by_cases h2 : amount ≤ 0
  case pos => simp [h1, h2] at h
  by_cases h3 : TokenBDB.balance s owner < amount
  case pos => simp [h1, h2, h3] at h
  have hb0 := mget_nonneg hinv.bal_pos owner
  have hs := hinv.supply_sum
  simp only [TokenBDB.total_supply] at hs
  by_cases h4 : TokenBDB.balance s owner - amount = 0
  · cases hc : checked_sub (s.totalSupply.getD 0) amount with
    | none => simp [h1, h2, h3, h4, hc] at h
    | some nt =>
    obtain ⟨hnt, _, _⟩ := checked_sub_eq_some hc
    simp only [h1, h2, h3, h4, hc, not_true_eq_false, if_false, ite_false, ite_true, if_true]
    simp only [TokenBDB.balance] at h4
    refine ⟨?_, ?_, ?_, ?_, ?_, ?_, ?_⟩
    · exact WFmap_mdel _ hinv.wf_bal
    · exact hinv.wf_alw
    · intro p hp
      exact hinv.bal_pos p (mem_of_mem_mdel hp)
    · exact hinv.alw_pos
    · simp only [TokenBDB.total_supply, Option.getD_some]
      rw [msum_mdel _ _ hinv.wf_bal, hnt]
      omega
    · intro hfalse
      simp at hfalse
    · intro _
      simpa using hinv.admin_some h1
  · cases hc : checked_sub (s.totalSupply.getD 0) amount with
    | none => simp [h1, h2, h3, h4, hc] at h
    | some nt =>
    obtain ⟨hnt, _, _⟩ := checked_sub_eq_some hc
    simp only [h1, h2, h3, h4, hc, not_true_eq_false, if_false, ite_false, ite_true, if_true]
    simp only [TokenBDB.balance] at h3 h4
    refine ⟨?_, ?_, ?_, ?_, ?_, ?_, ?_⟩
    · exact WFmap_mset _ _ hinv.wf_bal
    · exact hinv.wf_alw
    · intro p hp
      rcases List.mem_cons.mp hp with hp1 | hp2
      · subst hp1
        simp only [TokenBDB.balance]
        omega
      · exact hinv.bal_pos p (mem_of_mem_mdel hp2)
    · exact hinv.alw_pos
    · simp only [TokenBDB.total_supply, Option.getD_some]
      rw [msum_mset _ _ _ hinv.wf_bal, hnt]
      simp only [TokenBDB.balance]
      omega
    · intro hfalse
      simp at hfalse
    · intro _
      simpa using hinv.admin_some h1

/-- A successful transfer preserves the invariant. -/
theorem Inv_transfer {s : Ledger} (hinv : LedgerInv s) (owner to_ : Addr) (amount : Int)
    (h : (TokenBDB.transfer s owner to_ amount).1 = .ok ()) :
    LedgerInv (TokenBDB.transfer s owner to_ amount).2 := by
  unfold TokenBDB.transfer at h ⊢
  by_cases h1 : s.initialized
  case neg => simp [h1] at h
  by_cases h2 : amount ≤ 0
  case pos => simp [h1, h2] at h
  by_cases h3 : owner = to_
  case pos => simp [h1, h2, h3] at h
  by_cases h4 : TokenBDB.balance s owner < amount
  case pos => simp [h1, h2, h3, h4] at h
  cases hc : checked_add (TokenBDB.balance s to_) amount with
  | none => simp [h1, h2, h3, h4, hc] at h
  | some nb =>
  obtain ⟨hnb, _, _⟩ := checked_add_eq_some hc
  have hbt0 := mget_nonneg hinv.bal_pos to_
  have hs := hinv.supply_sum
  simp only [TokenBDB.total_supply] at hs
  simp only [TokenBDB.balance] at hnb
  have h3' : ¬ to_ = owner := fun e => h3 e.symm
  by_cases h5 : TokenBDB.balance s owner - amount = 0
  · simp only [h1, h2, h3, h4, h5, hc, not_true_eq_false, if_false, ite_false, ite_true,
      if_true]
    simp only [TokenBDB.balance] at h4 h5
    have w1 : WFmap (mdel s.balances owner) := WFmap_mdel _ hinv.wf_bal
    refine ⟨?_, ?_, ?_, ?_, ?_, ?_, ?_⟩
    · exact WFmap_mset _ _ w1
    · exact hinv.wf_alw
    · intro p hp
      rcases List.mem_cons.mp hp with hp1 | hp2
      · subst hp1
        simp only [hnb]
        omega
      · exact hinv.bal_pos p (mem_of_mem_mdel (mem_of_mem_mdel hp2))
    · exact hinv.alw_pos
    · simp only [TokenBDB.total_supply, Option.getD_some]
      rw [msum_mset _ _ _ w1, msum_mdel _ _ hinv.wf_bal, mget_mdel, if_neg h3', hnb]
      omega
    · intro hfalse
      simp at hfalse
    · intro _
      simpa using hinv.admin_some h1
  · simp only [h1, h2, h3, h4, h5, hc, not_true_eq_false, if_false, ite_false, ite_true,
      if_true]
    simp only [TokenBDB.balance] at h4 h5
    have w1 : WFmap (mset s.balances owner (TokenBDB.balance s owner - amount)) :=
      WFmap_mset _ _ hinv.wf_bal
    refine ⟨?_, ?_, ?_, ?_, ?_, ?_, ?_⟩
    · exact WFmap_mset _ _ w1
    · exact hinv.wf_alw
    · intro p hp
      rcases List.mem_cons.mp hp with hp1 | hp2
      · subst hp1
        simp only [hnb]
        omega
      · rcases List.mem_cons.mp (mem_of_mem_mdel hp2) with hp3 | hp4
        · subst hp3
          simp only [TokenBDB.balance]
          omega
        · exact hinv.bal_pos p (mem_of_mem_mdel hp4)
    · exact hinv.alw_pos
    · simp only [TokenBDB.total_supply, Option.getD_some]
      rw [msum_mset _ _ _ w1, msum_mset _ _ _ hinv.wf_bal, mget_mset, if_neg h3, hnb]
      simp only [TokenBDB.balance]
      omega
    · intro hfalse
      simp at hfalse
    · intro _
      simpa using hinv.admin_some h1

/-- A successful approve preserves the invariant. -/
theorem Inv_approve {s : Ledger} (hinv : LedgerInv s) (owner spender : Addr) (amount : Int)
    (h : (TokenBDB.approve s owner spender amount).1 = .ok ()) :
    LedgerInv (TokenBDB.approve s owner spender amount).2 := by
  unfold TokenBDB.approve at h ⊢
  by_cases h1 : s.initialized
  case neg => simp [h1] at h
  by_cases h2 : amount < 0
  case pos => simp [h1, h2] at h
  by_cases h3 : amount = 0
  · simp only [h1, h2, h3, not_true_eq_false, if_false, ite_false, ite_true, if_true]
    refine ⟨hinv.wf_bal, WFmap_mdel _ hinv.wf_alw, hinv.bal_pos, ?_, ?_, ?_, ?_⟩
    · intro p hp
      exact hinv.alw_pos p (mem_of_mem_mdel hp)
    · simpa [TokenBDB.total_supply] using hinv.supply_sum
    · intro hfalse
      simp at hfalse
    · intro _
      simpa using hinv.admin_some h1
  · simp only [h1, h2, h3, not_true_eq_false, if_false, ite_false, ite_true, if_true]
    refine ⟨hinv.wf_bal, WFmap_mset _ _ hinv.wf_alw, hinv.bal_pos, ?_, ?_, ?_, ?_⟩
    · intro p hp
      rcases List.mem_cons.mp hp with hp1 | hp2
      · subst hp1
        simp only []
        omega
      · exact hinv.alw_pos p (mem_of_mem_mdel hp2)
    · simpa [TokenBDB.total_supply] using hinv.supply_sum
    · intro hfalse
      simp at hfalse
    · intro _
      simpa using hinv.admin_some h1

/-- A successful transfer_from preserves the invariant. -/
theorem Inv_transfer_from {s : Ledger} (hinv : LedgerInv s) (spender owner to_ : Addr)
    (amount : Int) (h : (TokenBDB.transfer_from s spender owner to_ amount).1 = .ok ()) :
    LedgerInv (TokenBDB.transfer_from s spender owner to_ amount).2 := by
  unfold TokenBDB.transfer_from at h ⊢
  by_cases h1 : s.initialized
  case neg => simp [h1] at h
  by_cases h2 : amount ≤ 0
  case pos => simp [h1, h2] at h
  by_cases h3 : owner = to_
  case pos => simp [h1, h2, h3] at h
  by_cases h4 : TokenBDB.allowance s owner spender < amount
  case pos => simp [h1, h2, h3, h4] at h
  by_cases h5 : TokenBDB.balance s owner < amount
  case pos => simp [h1, h2, h3, h4, h5] at h
  cases hc : checked_add (TokenBDB.balance s to_) amount with
  | none => simp [h1, h2, h3, h4, h5, hc] at h
  | some nb =>
  obtain ⟨hnb, _, _⟩ := checked_add_eq_some hc
  have hbt0 := mget_nonneg hinv.bal_pos to_
  have hs := hinv.supply_sum
  simp only [TokenBDB.total_supply] at hs
  simp only [TokenBDB.balance] at hnb
  have h3' : ¬ to_ = owner := fun e => h3 e.symm
  by_cases h6 : TokenBDB.balance s owner - amount = 0 <;>
    by_cases h7 : TokenBDB.allowance s owner spender - amount = 0 <;>
      simp only [h1, h2, h3, h4, h5, h6, h7, hc, not_true_eq_false, if_false, ite_false,
        ite_true, if_true] <;>
    simp only [TokenBDB.balance, TokenBDB.allowance] at h4 h5 h6 h7 <;>
    refine ⟨?_, ?_, ?_, ?_, ?_, ?_, ?_⟩
  · exact WFmap_mset _ _ (WFmap_mdel _ hinv.wf_bal)
  · exact WFmap_mdel _ hinv.wf_alw
  · intro p hp
    rcases List.mem_cons.mp hp with hp1 | hp2
    · subst hp1
      simp only [hnb]
      omega
    · exact hinv.bal_pos p (mem_of_mem_mdel (mem_of_mem_mdel hp2))
  · intro p hp
    exact hinv.alw_pos p (mem_of_mem_mdel hp)
  · simp only [TokenBDB.total_supply, Option.getD_some]
    rw [msum_mset _ _ _ (WFmap_mdel _ hinv.wf_bal), msum_mdel _ _ hinv.wf_bal, mget_mdel,
      if_neg h3', hnb]
    omega
  · intro hfalse
    simp at hfalse
  · intro _
    simpa using hinv.admin_some h1
  · exact WFmap_mset _ _ (WFmap_mdel _ hinv.wf_bal)
  · exact WFmap_mset _ _ hinv.wf_alw
  · intro p hp
    rcases List.mem_cons.mp hp with hp1 | hp2
    · subst hp1
      simp only [hnb]
      omega
    · exact hinv.bal_pos p (mem_of_mem_mdel (mem_of_mem_mdel hp2))
  · intro p hp
    rcases List.mem_cons.mp hp with hp1 | hp2
    · subst hp1
      simp only [TokenBDB.allowance]
      omega
    · exact hinv.alw_pos p (mem_of_mem_mdel hp2)
  · simp only [TokenBDB.total_supply, Option.getD_some]
    rw [msum_mset _ _ _ (WFmap_mdel _ hinv.wf_bal), msum_mdel _ _ hinv.wf_bal, mget_mdel,
      if_neg h3', hnb]
    omega
  · intro hfalse
    simp at hfalse
  · intro _
    simpa using hinv.admin_some h1
  · exact WFmap_mset _ _ (WFmap_mset _ _ hinv.wf_bal)
  · exact WFmap_mdel _ hinv.wf_alw
  · intro p hp
    rcases List.mem_cons.mp hp with hp1 | hp2
    · subst hp1
      simp only [hnb]
      omega
    · rcases List.mem_cons.mp (mem_of_mem_mdel hp2) with hp3 | hp4
      · subst hp3
        simp only [TokenBDB.balance]
        omega
      · exact hinv.bal_pos p (mem_of_mem_mdel hp4)
  · intro p hp
    exact hinv.alw_pos p (mem_of_mem_mdel hp)
  · simp only [TokenBDB.total_supply, Option.getD_some]
    rw [msum_mset _ _ _ (WFmap_mset _ _ hinv.wf_bal), msum_mset _ _ _ hinv.wf_bal,
      mget_mset, if_neg h3, hnb]
    simp only [TokenBDB.balance]
    omega
  · intro hfalse
    simp at hfalse
  · intro _
    simpa using hinv.admin_some h1
  · exact WFmap_mset _ _ (WFmap_mset _ _ hinv.wf_bal)
  · exact WFmap_mset _ _ hinv.wf_alw
  · intro p hp
    rcases List.mem_cons.mp hp with hp1 | hp2
    · subst hp1
      simp only [hnb]
      omega
    · rcases List.mem_cons.mp (mem_of_mem_mdel hp2) with hp3 | hp4
      · subst hp3
        simp only [TokenBDB.balance]
        omega
      · exact hinv.bal_pos p (mem_of_mem_mdel hp4)
  · intro p hp
    rcases List.mem_cons.mp hp with hp1 | hp2
    · subst hp1
      simp only [TokenBDB.allowance]
      omega
    · exact hinv.alw_pos p (mem_of_mem_mdel hp2)
  · simp only [TokenBDB.total_supply, Option.getD_some]
    rw [msum_mset _ _ _ (WFmap_mset _ _ hinv.wf_bal), msum_mset _ _ _ hinv.wf_bal,
      mget_mset, if_neg h3, hnb]
    simp only [TokenBDB.balance]
    omega
  · intro hfalse
    simp at hfalse
  · intro _
    simpa using hinv.admin_some h1

/-- A successful initialization establishes the invariant. -/
theorem Inv_initialize_ {s : Ledger} (hinv : LedgerInv s) (a : Addr) (nm sym : String)
    (dec : Nat) (h : (TokenBDB.initialize_ s a nm sym dec).1 = .ok ()) :
    LedgerInv (TokenBDB.initialize_ s a nm sym dec).2 := by
  unfold TokenBDB.initialize_ at h ⊢
  by_cases h1 : s.initialized
  case pos => simp [h1] at h
  by_cases h2 : dec > TokenBDB.MAX_DECIMALS
  case pos => simp [h1, h2] at h
  by_cases h3 : nm.length = 0 ∨ nm.length > TokenBDB.MAX_NAME_LENGTH
  case pos => simp [h1, h2, h3] at h
  by_cases h4 : sym.length = 0 ∨ sym.length > TokenBDB.MAX_SYMBOL_LENGTH
  case pos => simp [h1, h2, h3, h4] at h
  obtain ⟨hb, hal, _, _⟩ := hinv.uninit (by simpa using h1)
  simp only [h1, h2, h3, h4, if_false, ite_false, ite_true, if_true]
  refine ⟨hinv.wf_bal, hinv.wf_alw, hinv.bal_pos, hinv.alw_pos, ?_, ?_, ?_⟩
  · simp [TokenBDB.total_supply, hb, msum]
  · intro hfalse
    simp at hfalse
  · intro _
    simp

/-- Every committed step preserves the invariant. -/
theorem Inv_commit {s : Ledger} (hinv : LedgerInv s) (c : OpCall) :
    LedgerInv (commit s c) := by
  rcases hr : runOp s c with ⟨r, s2⟩
  cases r with
  | error e => simpa [commit, hr] using hinv
  | ok u =>
    cases u
    have h1 : (runOp s c).1 = .ok () := by rw [hr]
    have h2 : commit s c = (runOp s c).2 := by simp [commit, hr]
    rw [h2]
    cases c with
    | initialize_ a nm sym dec => exact Inv_initialize_ hinv a nm sym dec h1
    | mint t amt => exact Inv_mint hinv t amt h1
    | burn o amt => exact Inv_burn hinv o amt h1
    | transfer o t amt => exact Inv_transfer hinv o t amt h1
    | approve o sp amt => exact Inv_approve hinv o sp amt h1
    | transfer_from sp o t amt => exact Inv_transfer_from hinv sp o t amt h1

/-- The invariant holds along any trace. -/
theorem Inv_runTrace {s : Ledger} (hinv : LedgerInv s) (cs : List OpCall) :
    LedgerInv (runTrace s cs) := by
  induction cs generalizing s with
  | nil => exact hinv
  | cons c cs ih => exact ih (Inv_commit hinv c)

/-- Every reachable state satisfies the invariant. -/
theorem Inv_reachable {s : Ledger} (h : Reachable s) : LedgerInv s := by
  obtain ⟨cs, hcs⟩ := h
  exact hcs ▸ Inv_runTrace Inv_empty cs

/-- Characterization of a successful mint: its guards and the exact state
it commits. -/
theorem mint_ok_state (s : Ledger) (t : Addr) (amt : Int)
    (h : (TokenBDB.mint s t amt).1 = .ok ()) :
    s.initialized = true ∧ 0 < amt ∧
    TokenBDB.mint s t amt =
      (.ok (),
        { s with
          balances := mset s.balances t (TokenBDB.balance s t + amt)
          totalSupply := some (s.totalSupply.getD 0 + amt) }) := by
  unfold TokenBDB.mint at h ⊢
  by_cases h1 : s.initialized
  case neg => simp [h1] at h
  cases ha : s.admin with
  | none => simp [h1, ha] at h
  | some a =>
  by_cases h2 : amt ≤ 0
  case pos => simp [h1, ha, h2] at h
  cases hc : checked_add (TokenBDB.balance s t) amt with
  | none => simp [h1, ha, h2, hc] at h
  | some nb =>
  cases hc2 : checked_add (s.totalSupply.getD 0) amt with
  | none => simp [h1, ha, h2, hc, hc2] at h
  | some nt =>
  obtain ⟨hnb, _, _⟩ := checked_add_eq_some hc
  obtain ⟨hnt, _, _⟩ := checked_add_eq_some hc2
  subst hnb
  subst hnt
  exact ⟨h1, by omega, by simp [h1, ha, h2, hc, hc2]⟩

/-- Characterization of a successful burn. -/
theorem burn_ok_state (s : Ledger) (o : Addr) (amt : Int)
    (h : (TokenBDB.burn s o amt).1 = .ok ()) :
    s.initialized = true ∧ 0 < amt ∧ amt ≤ TokenBDB.balance s o ∧
    TokenBDB.burn s o amt =
      (.ok (),
        { s with
          balances := if TokenBDB.balance s o - amt = 0 then mdel s.balances o
            else mset s.balances o (TokenBDB.balance s o - amt)
          totalSupply := some (s.totalSupply.getD 0 - amt) }) := by
  unfold TokenBDB.burn at h ⊢
  by_cases h1 : s.initialized
  case neg => simp [h1] at h
  by_cases h2 : amt ≤ 0
  case pos => simp [h1, h2] at h
  by_cases h3 : TokenBDB.balance s o < amt
  case pos => simp [h1, h2, h3] at h
  cases hc : checked_sub (s.totalSupply.getD 0) amt with
  | none =>
    by_cases h4 : TokenBDB.balance s o - amt = 0 <;> simp [h1, h2, h3, h4, hc] at h
  | some nt =>
  obtain ⟨hnt, _, _⟩ := checked_sub_eq_some hc
  subst hnt
  refine ⟨h1, by omega, by omega, ?_⟩
  by_cases h4 : TokenBDB.balance s o - amt = 0 <;> simp [h1, h2, h3, h4, hc]

/-- Characterization of a successful transfer. -/
theorem transfer_ok_state (s : Ledger) (o t : Addr) (amt : Int)
    (h : (TokenBDB.transfer s o t amt).1 = .ok ()) :
    s.initialized = true ∧ 0 < amt ∧ o ≠ t ∧ amt ≤ TokenBDB.balance s o ∧
    TokenBDB.transfer s o t amt =
      (.ok (),
        { s with
          balances := mset (if TokenBDB.balance s o - amt = 0 then mdel s.balances o
            else mset s.balances o (TokenBDB.balance s o - amt)) t
            (TokenBDB.balance s t + amt) }) := by
  unfold TokenBDB.transfer at h ⊢
  by_cases h1 : s.initialized
  case neg => simp [h1] at h
  by_cases h2 : amt ≤ 0
  case pos => simp [h1, h2] at h
  by_cases h3 : o = t
  case pos => simp [h1, h2, h3] at h
  by_cases h4 : TokenBDB.balance s o < amt
  case pos => simp [h1, h2, h3, h4] at h
  cases hc : checked_add (TokenBDB.balance s t) amt with
  | none => simp [h1, h2, h3, h4, hc] at h
  | some nb =>
  obtain ⟨hnb, _, _⟩ := checked_add_eq_some hc
  subst hnb
  refine ⟨h1, by omega, h3, by omega, ?_⟩
  by_cases h5 : TokenBDB.balance s o - amt = 0 <;> simp [h1, h2, h3, h4, h5, hc]

/-- Characterization of a successful approve. -/
theorem approve_ok_state (s : Ledger) (o sp : Addr) (amt : Int)
    (h : (TokenBDB.approve s o sp amt).1 = .ok ()) :
    s.initialized = true ∧ 0 ≤ amt ∧
    TokenBDB.approve s o sp amt =
      (.ok (),
        { s with
          allowances := if amt = 0 then mdel s.allowances (o, sp)
            else mset s.allowances (o, sp) amt }) := by
  unfold TokenBDB.approve at h ⊢
  by_cases h1 : s.initialized
  case neg => simp [h1] at h
  by_cases h2 : amt < 0
  case pos => simp [h1, h2] at h
  refine ⟨h1, by omega, ?_⟩
  by_cases h3 : amt = 0 <;> simp [h1, h2, h3]

/-- Characterization of a successful transfer_from. -/
theorem transfer_from_ok_state (s : Ledger) (sp o t : Addr) (amt : Int)
    (h : (TokenBDB.transfer_from s sp o t amt).1 = .ok ()) :
    s.initialized = true ∧ 0 < amt ∧ o ≠ t ∧ amt ≤ TokenBDB.allowance s o sp ∧
    amt ≤ TokenBDB.balance s o ∧
    TokenBDB.transfer_from s sp o t amt =
      (.ok (),
        { s with
          balances := mset (if TokenBDB.balance s o - amt = 0 then mdel s.balances o
            else mset s.balances o (TokenBDB.balance s o - amt)) t
            (TokenBDB.balance s t + amt)
          allowances := if TokenBDB.allowance s o sp - amt = 0 then mdel s.allowances (o, sp)
            else mset s.allowances (o, sp) (TokenBDB.allowance s o sp - amt) }) := by
  unfold TokenBDB.transfer_from at h ⊢
  by_cases h1 : s.initialized
  case neg => simp [h1] at h
  by_cases h2 : amt ≤ 0
  case pos => simp [h1, h2] at h
  by_cases h3 : o = t
  case pos => simp [h1, h2, h3] at h
  by_cases h4 : TokenBDB.allowance s o sp < amt
  case pos => simp [h1, h2, h3, h4] at h
  by_cases h5 : TokenBDB.balance s o < amt
  case pos => simp [h1, h2, h3, h4, h5] at h
  cases hc : checked_add (TokenBDB.balance s t) amt with
  | none => simp [h1, h2, h3, h4, h5, hc] at h
  | some nb =>
  obtain ⟨hnb, _, _⟩ := checked_add_eq_some hc
  subst hnb
  refine ⟨h1, by omega, h3, by omega, by omega, ?_⟩
  by_cases h6 : TokenBDB.balance s o - amt = 0 <;>
    by_cases h7 : TokenBDB.allowance s o sp - amt = 0 <;>
      simp [h1, h2, h3, h4, h5, h6, h7, hc]

/-- Characterization of a successful initialization. -/
theorem initialize__ok_state (s : Ledger) (a : Addr) (nm sym : String) (dec : Nat)
    (h : (TokenBDB.initialize_ s a nm sym dec).1 = .ok ()) :
    s.initialized = false ∧ dec ≤ 18 ∧
    1 ≤ nm.length ∧ nm.length ≤ 100 ∧ 1 ≤ sym.length ∧ sym.length ≤ 32 ∧
    TokenBDB.initialize_ s a nm sym dec =
      (.ok (),
        { s with
          admin := some a
          tokenName := some nm
          tokenSymbol := some sym
          decimals := some dec
          totalSupply := some 0
          initialized := true }) := by
  unfold TokenBDB.initialize_ at h ⊢
  by_cases h1 : s.initialized
  case pos => simp [h1] at h
  by_cases h2 : dec > TokenBDB.MAX_DECIMALS
  case pos => simp [h1, h2] at h
  by_cases h3 : nm.length = 0 ∨ nm.length > TokenBDB.MAX_NAME_LENGTH
  case pos => simp [h1, h2, h3] at h
  by_cases h4 : sym.length = 0 ∨ sym.length > TokenBDB.MAX_SYMBOL_LENGTH
  case pos => simp [h1, h2, h3, h4] at h
  have h2' := h2
  have h3' := h3
  have h4' := h4
  push_neg at h3' h4'
  simp only [TokenBDB.MAX_DECIMALS] at h2'
  simp only [TokenBDB.MAX_NAME_LENGTH] at h3'
  simp only [TokenBDB.MAX_SYMBOL_LENGTH] at h4'
  refine ⟨by simpa using h1, by omega, by omega, by omega, by omega, by omega, ?_⟩
  simp [h1, h2, h3, h4]

/-- An initialization that returns an error leaves the state untouched. -/
theorem initialize__err_state (s : Ledger) (a : Addr) (nm sym : String) (dec : Nat)
    (e : TokenError) (h : (TokenBDB.initialize_ s a nm sym dec).1 = .error e) :
    (TokenBDB.initialize_ s a nm sym dec).2 = s := by
  unfold TokenBDB.initialize_ at h ⊢
  by_cases h1 : s.initialized
  case pos => simp [h1]
  by_cases h2 : dec > TokenBDB.MAX_DECIMALS
  case pos => simp [h1, h2]
  by_cases h3 : nm.length = 0 ∨ nm.length > TokenBDB.MAX_NAME_LENGTH
  case pos => simp [h1, h2, h3]
  by_cases h4 : sym.length = 0 ∨ sym.length > TokenBDB.MAX_SYMBOL_LENGTH
  case pos => simp [h1, h2, h3, h4]
  simp [h1, h2, h3, h4] at h

/-- A transfer that returns an error leaves the state untouched. -/
theorem transfer_err_state (s : Ledger) (o t : Addr) (amt : Int) (e : TokenError)
    (h : (TokenBDB.transfer s o t amt).1 = .error e) :
    (TokenBDB.transfer s o t amt).2 = s := by
  unfold TokenBDB.transfer at h ⊢
  by_cases h1 : s.initialized
  case neg => simp [h1]
  by_cases h2 : amt ≤ 0
  case pos => simp [h1, h2]
  by_cases h3 : o = t
  case pos => simp [h1, h2, h3]
  by_cases h4 : TokenBDB.balance s o < amt
  case pos => simp [h1, h2, h3, h4]
  cases hc : checked_add (TokenBDB.balance s t) amt with
  | none => simp [h1, h2, h3, h4, hc]
  | some nb =>
    by_cases h5 : TokenBDB.balance s o - amt = 0 <;> simp [h1, h2, h3, h4, h5, hc] at h

/-- An approve that returns an error leaves the state untouched. -/
theorem approve_err_state (s : Ledger) (o sp : Addr) (amt : Int) (e : TokenError)
    (h : (TokenBDB.approve s o sp amt).1 = .error e) :
    (TokenBDB.approve s o sp amt).2 = s := by
  unfold TokenBDB.approve at h ⊢
  by_cases h1 : s.initialized
  case neg => simp [h1]
  by_cases h2 : amt < 0
  case pos => simp [h1, h2]
  by_cases h3 : amt = 0 <;> simp [h1, h2, h3] at h

/-- A transfer_from that returns an error leaves the state untouched. -/
theorem transfer_from_err_state (s : Ledger) (sp o t : Addr) (amt : Int) (e : TokenError)
    (h : (TokenBDB.transfer_from s sp o t amt).1 = .error e) :
    (TokenBDB.transfer_from s sp o t amt).2 = s := by
  unfold TokenBDB.transfer_from at h ⊢
  by_cases h1 : s.initialized
  case neg => simp [h1]
  by_cases h2 : amt ≤ 0
  case pos => simp [h1, h2]
  by_cases h3 : o = t
  case pos => simp [h1, h2, h3]
  by_cases h4 : TokenBDB.allowance s o sp < amt
  case pos => simp [h1, h2, h3, h4]
  by_cases h5 : TokenBDB.balance s o < amt
  case pos => simp [h1, h2, h3, h4, h5]
  cases hc : checked_add (TokenBDB.balance s t) amt with
  | none => simp [h1, h2, h3, h4, h5, hc]
  | some nb =>
    by_cases h6 : TokenBDB.balance s o - amt = 0 <;>
      by_cases h7 : TokenBDB.allowance s o sp - amt = 0 <;>
        simp [h1, h2, h3, h4, h5, h6, h7, hc] at h

/-- A mint that returns an error leaves the state untouched, except when
the supply-counter addition overflows after the recipient balance write. -/
theorem mint_err_state (s : Ledger) (t : Addr) (amt : Int) (e : TokenError)
    (h : (TokenBDB.mint s t amt).1 = .error e) :
    (TokenBDB.mint s t amt).2 = s ∨
      (e = TokenError.OverflowError ∧
        (TokenBDB.mint s t amt).2 =
          { s with balances := mset s.balances t (TokenBDB.balance s t + amt) }) := by
  unfold TokenBDB.mint at h ⊢
  by_cases h1 : s.initialized
  case neg => left; simp [h1]
  cases ha : s.admin with
  | none => left; simp [h1, ha]
  | some a =>
  by_cases h2 : amt ≤ 0
  case pos => left; simp [h1, ha, h2]
  cases hc : checked_add (TokenBDB.balance s t) amt with
  | none => left; simp [h1, ha, h2, hc]
  | some nb =>
  obtain ⟨hnb, _, _⟩ := checked_add_eq_some hc
  subst hnb
  cases hc2 : checked_add (s.totalSupply.getD 0) amt with
  | none =>
    right
    simp [h1, ha, h2, hc, hc2] at h ⊢
    exact h.symm
  | some nt => simp [h1, ha, h2, hc, hc2] at h

/-- A burn that returns an error leaves the state untouched, except when
the supply-counter subtraction overflows after the balance write. -/
theorem burn_err_state (s : Ledger) (o : Addr) (amt : Int) (e : TokenError)
    (h : (TokenBDB.burn s o amt).1 = .error e) :
    (TokenBDB.burn s o amt).2 = s ∨
      (e = TokenError.OverflowError ∧
        (TokenBDB.burn s o amt).2 =
          { s with balances := if TokenBDB.balance s o - amt = 0 then mdel s.balances o
              else mset s.balances o (TokenBDB.balance s o - amt) }) := by
  unfold TokenBDB.burn at h ⊢
  by_cases h1 : s.initialized
  case neg => left; simp [h1]
  by_cases h2 : amt ≤ 0
  case pos => left; simp [h1, h2]
  by_cases h3 : TokenBDB.balance s o < amt
  case pos => left; simp [h1, h2, h3]
  cases hc : checked_sub (s.totalSupply.getD 0) amt with
  | none =>
    right
    by_cases h4 : TokenBDB.balance s o - amt = 0 <;> simp [h1, h2, h3, h4, hc] at h ⊢ <;>
      exact h.symm
  | some nt =>
    by_cases h4 : TokenBDB.balance s o - amt = 0 <;> simp [h1, h2, h3, h4, hc] at h

/-- A failed invocation commits nothing. -/
theorem commit_eq_of_err {s : Ledger} {c : OpCall} {e : TokenError}
    (h : (runOp s c).1 = .error e) : commit s c = s := by
  rcases hp : runOp s c with ⟨r, s2⟩
  cases r with
  | ok u => rw [hp] at h; simp at h
  | error e2 => simp [commit, hp]

/-- A successful invocation commits the operation's final state. -/
theorem commit_eq_of_ok {s : Ledger} {c : OpCall} (h : (runOp s c).1 = .ok ()) :
    commit s c = (runOp s c).2 := by
  rcases hp : runOp s c with ⟨r, s2⟩
  cases r with
  | ok u => simp [commit, hp]
  | error e => rw [hp] at h; simp at h

/-- One committed call sets the initialized flag exactly when it is a
successful initialization; no call ever clears it. -/
theorem commit_initialized (s : Ledger) (c : OpCall) :
    (commit s c).initialized = (s.initialized || (isInitCall c && isOk (runOp s c).1)) := by
  cases hr : (runOp s c).1 with
  | error e =>
    rw [commit_eq_of_err hr]
    simp [isOk]
  | ok u =>
    cases u
    rw [commit_eq_of_ok hr]
    cases c with
    | initialize_ a nm sym dec =>
      have heq := (initialize__ok_state s a nm sym dec hr).2.2.2.2.2.2
      show (TokenBDB.initialize_ s a nm sym dec).2.initialized = _
      rw [heq]
      simp [isInitCall, isOk, hr]
    | mint t amt =>
      have heq := (mint_ok_state s t amt hr).2.2
      show (TokenBDB.mint s t amt).2.initialized = _
      rw [heq]
      simp [isInitCall]
    | burn o amt =>
      have heq := (burn_ok_state s o amt hr).2.2.2
      show (TokenBDB.burn s o amt).2.initialized = _
      rw [heq]
      simp [isInitCall]
    | transfer o t amt =>
      have heq := (transfer_ok_state s o t amt hr).2.2.2.2
      show (TokenBDB.transfer s o t amt).2.initialized = _
      rw [heq]
      simp [isInitCall]
    | approve o sp amt =>
      have heq := (approve_ok_state s o sp amt hr).2.2
      show (TokenBDB.approve s o sp amt).2.initialized = _
      rw [heq]
      simp [isInitCall]
    | transfer_from sp o t amt =>
      have heq := (transfer_from_ok_state s sp o t amt hr).2.2.2.2.2
      show (TokenBDB.transfer_from s sp o t amt).2.initialized = _
      rw [heq]
      simp [isInitCall]

/-- Along a trace, the initialized flag is set exactly when the start state
was initialized or some initialization call in the trace succeeded. -/
theorem runTrace_initialized (s : Ledger) (cs : List OpCall) :
    (runTrace s cs).initialized = (s.initialized || initSucceeded s cs) := by
  induction cs generalizing s with
  | nil => simp [runTrace, initSucceeded]
  | cons c cs ih =>
    show (runTrace (commit s c) cs).initialized = _
    rw [ih, commit_initialized]
    show _ = (s.initialized || ((isInitCall c && isOk (runOp s c).1) || initSucceeded (commit s c) cs))
    cases s.initialized <;>
      cases hb : (isInitCall c && isOk (runOp s c).1) <;>
        cases initSucceeded (commit s c) cs <;> simp

/-- A concrete initialized ledger: account 1 holds 500 tokens and has
approved spender 2 for 500. -/
def demoLedger : Ledger :=
  { balances := [(1, 500)]
    allowances := [((1, 2), 500)]
    totalSupply := some 500
    admin := some 0
    tokenName := some "Token"
    tokenSymbol := some "TKN"
    decimals := some 7
    initialized := true }

/-- The demo ledger is reachable from the fresh ledger. -/
theorem demoLedger_reachable : Reachable demoLedger :=
  ⟨[OpCall.initialize_ 0 "Token" "TKN" 7, OpCall.mint 1 500, OpCall.approve 1 2 500],
   by decide⟩

/-- A ledger whose supply counter sits at the `i128` maximum, all of it
held by account 0. -/
def maxSupplyLedger : Ledger :=
  { balances := [(0, I128_MAX)]
    allowances := []
    totalSupply := some I128_MAX
    admin := some 0
    tokenName := some "T"
    tokenSymbol := some "T"
    decimals := some 7
    initialized := true }

/-- The maximum-supply ledger is reachable from the fresh ledger. -/
theorem maxSupplyLedger_reachable : Reachable maxSupplyLedger :=
  ⟨[OpCall.initialize_ 0 "T" "T" 7, OpCall.mint 0 I128_MAX], by decide⟩

/-- C1 counterexample: from the reachable state `maxSupplyLedger`, minting
1 unit to account 1 returns `OverflowError` from the supply-counter
addition, yet the recipient's balance write has already landed — the
returned ledger differs from the starting one, refuting zero state
mutation on every error return. -/
theorem C1_counterexample :
    (TokenBDB.mint maxSupplyLedger 1 1).1 = Except.error TokenError.OverflowError ∧
    (TokenBDB.mint maxSupplyLedger 1 1).2 ≠ maxSupplyLedger ∧
    TokenBDB.balance (TokenBDB.mint maxSupplyLedger 1 1).2 1 = 1 ∧
    TokenBDB.balance maxSupplyLedger 1 = 0 := by
  decide

/-- C1 (amended): when a public operation returns an error, the
allowances, supply counter, admin, metadata and initialized flag are
exactly as before the call, and the balances are also unchanged unless the
failing operation is a mint or burn whose supply-counter checked
arithmetic failed with `OverflowError` after the balance write. -/
theorem C1_error_frame (s : Ledger) (c : OpCall) (e : TokenError)
    (h : (runOp s c).1 = Except.error e) :
    (runOp s c).2.allowances = s.allowances ∧
    (runOp s c).2.totalSupply = s.totalSupply ∧
    (runOp s c).2.admin = s.admin ∧
    (runOp s c).2.tokenName = s.tokenName ∧
    (runOp s c).2.tokenSymbol = s.tokenSymbol ∧
    (runOp s c).2.decimals = s.decimals ∧
    (runOp s c).2.initialized = s.initialized ∧
    ((runOp s c).2.balances = s.balances ∨
      (e = TokenError.OverflowError ∧
        ((∃ t amt, c = OpCall.mint t amt) ∨ (∃ o amt, c = OpCall.burn o amt)))) := by
  cases c with
  | initialize_ a nm sym dec =>
    simp only [runOp] at h ⊢
    rw [initialize__err_state s a nm sym dec e h]
    exact ⟨rfl, rfl, rfl, rfl, rfl, rfl, rfl, Or.inl rfl⟩
  | mint t amt =>
    simp only [runOp] at h ⊢
    rcases mint_err_state s t amt e h with hst | ⟨he, hst⟩ <;> rw [hst]
    · exact ⟨rfl, rfl, rfl, rfl, rfl, rfl, rfl, Or.inl rfl⟩
    · exact ⟨rfl, rfl, rfl, rfl, rfl, rfl, rfl, Or.inr ⟨he, Or.inl ⟨t, amt, rfl⟩⟩⟩
  | burn o amt =>
    simp only [runOp] at h ⊢
    rcases burn_err_state s o amt e h with hst | ⟨he, hst⟩ <;> rw [hst]
    · exact ⟨rfl, rfl, rfl, rfl, rfl, rfl, rfl, Or.inl rfl⟩
    · exact ⟨rfl, rfl, rfl, rfl, rfl, rfl, rfl, Or.inr ⟨he, Or.inr ⟨o, amt, rfl⟩⟩⟩
  | transfer o t amt =>
    simp only [runOp] at h ⊢
    rw [transfer_err_state s o t amt e h]
    exact ⟨rfl, rfl, rfl, rfl, rfl, rfl, rfl, Or.inl rfl⟩
  | approve o sp amt =>
    simp only [runOp] at h ⊢
    rw [approve_err_state s o sp amt e h]
    exact ⟨rfl, rfl, rfl, rfl, rfl, rfl, rfl, Or.inl rfl⟩
  | transfer_from sp o t amt =>
    simp only [runOp] at h ⊢
    rw [transfer_from_err_state s sp o t amt e h]
    exact ⟨rfl, rfl, rfl, rfl, rfl, rfl, rfl, Or.inl rfl⟩

/-- Concrete instance of the amended C1 at a failing transfer on the fresh
ledger. -/
theorem C1_error_frame_witness :
    (runOp Ledger.empty (OpCall.transfer 0 1 5)).2.allowances = Ledger.empty.allowances ∧
    (runOp Ledger.empty (OpCall.transfer 0 1 5)).2.totalSupply = Ledger.empty.totalSupply ∧
    (runOp Ledger.empty (OpCall.transfer 0 1 5)).2.admin = Ledger.empty.admin ∧
    (runOp Ledger.empty (OpCall.transfer 0 1 5)).2.tokenName = Ledger.empty.tokenName ∧
    (runOp Ledger.empty (OpCall.transfer 0 1 5)).2.tokenSymbol = Ledger.empty.tokenSymbol ∧
    (runOp Ledger.empty (OpCall.transfer 0 1 5)).2.decimals = Ledger.empty.decimals ∧
    (runOp Ledger.empty (OpCall.transfer 0 1 5)).2.initialized = Ledger.empty.initialized ∧
    ((runOp Ledger.empty (OpCall.transfer 0 1 5)).2.balances = Ledger.empty.balances ∨
      (TokenError.NotInitialized = TokenError.OverflowError ∧
        ((∃ t amt, OpCall.transfer 0 1 5 = OpCall.mint t amt) ∨
         (∃ o amt, OpCall.transfer 0 1 5 = OpCall.burn o amt)))) :=
  C1_error_frame Ledger.empty (OpCall.transfer 0 1 5) TokenError.NotInitialized (by decide)

/-- C2: in every state reachable from the fresh ledger by a sequence of
public operations, the supply counter equals the sum of all stored balance
records. -/
theorem C2_supply_invariant (s : Ledger) (h : Reachable s) :
    TokenBDB.total_supply s = msum s.balances :=
  (Inv_reachable h).supply_sum

/-- Concrete instance of C2 at a reachable nontrivial state. -/
theorem C2_supply_invariant_witness :
    Reachable demoLedger ∧ TokenBDB.total_supply demoLedger = msum demoLedger.balances :=
  ⟨demoLedger_reachable, C2_supply_invariant demoLedger demoLedger_reachable⟩

/-- C3: in every reachable state, every balance and every allowance read
is non-negative. -/
theorem C3_nonneg (s : Ledger) (h : Reachable s) :
    (∀ a : Addr, 0 ≤ TokenBDB.balance s a) ∧
    (∀ o sp : Addr, 0 ≤ TokenBDB.allowance s o sp) :=
  ⟨fun a => mget_nonneg (Inv_reachable h).bal_pos a,
   fun o sp => mget_nonneg (Inv_reachable h).alw_pos (o, sp)⟩

/-- Concrete instance of C3 at a reachable state. -/
theorem C3_nonneg_witness :
    0 ≤ TokenBDB.balance demoLedger 1 ∧ 0 ≤ TokenBDB.allowance demoLedger 1 2 :=
  ⟨(C3_nonneg demoLedger demoLedger_reachable).1 1,
   (C3_nonneg demoLedger demoLedger_reachable).2 1 2⟩

/-- C4: the full decision order and effect of `initialize`: the
initialized flag is checked first (`AlreadyInitialized`, no writes), then
`decimals ≤ 18` (`InvalidDecimals`), then the metadata length bounds
(`InvalidMetadata`), and on success the admin, name, symbol and decimals
are persisted, the supply counter is set to 0 and the flag is set. -/
theorem C4_initialize_spec (s : Ledger) (a : Addr) (nm sym : String) (dec : Nat) :
    (s.initialized = true →
      TokenBDB.initialize_ s a nm sym dec = (.error .AlreadyInitialized, s)) ∧
    (s.initialized = false → 18 < dec →
      TokenBDB.initialize_ s a nm sym dec = (.error .InvalidDecimals, s)) ∧
    (s.initialized = false → dec ≤ 18 →
      ¬(1 ≤ nm.length ∧ nm.length ≤ 100 ∧ 1 ≤ sym.length ∧ sym.length ≤ 32) →
      TokenBDB.initialize_ s a nm sym dec = (.error .InvalidMetadata, s)) ∧
    (s.initialized = false → dec ≤ 18 →
      1 ≤ nm.length → nm.length ≤ 100 → 1 ≤ sym.length → sym.length ≤ 32 →
      TokenBDB.initialize_ s a nm sym dec =
        (.ok (),
          { s with
            admin := some a
            tokenName := some nm
            tokenSymbol := some sym
            decimals := some dec
            totalSupply := some 0
            initialized := true })) := by
  refine ⟨?_, ?_, ?_, ?_⟩
  · intro h1
    simp [TokenBDB.initialize_, h1]
  · intro h1 h2
    have h2' : dec > TokenBDB.MAX_DECIMALS := by
      simp only [TokenBDB.MAX_DECIMALS]
      omega
    simp [TokenBDB.initialize_, h1, h2']
  · intro h1 h2 hbad
    have h2' : ¬ dec > TokenBDB.MAX_DECIMALS := by
      simp only [TokenBDB.MAX_DECIMALS]
      omega
    by_cases h3 : nm.length = 0 ∨ nm.length > TokenBDB.MAX_NAME_LENGTH
    · simp [TokenBDB.initialize_, h1, h2', h3]
    · have h3' := h3
      push_neg at h3'
      simp only [TokenBDB.MAX_NAME_LENGTH] at h3'
      have h4 : sym.length = 0 ∨ sym.length > TokenBDB.MAX_SYMBOL_LENGTH := by
        by_contra h4
        push_neg at h4
        simp only [TokenBDB.MAX_SYMBOL_LENGTH] at h4
        exact hbad ⟨by omega, by omega, by omega, by omega⟩
      simp [TokenBDB.initialize_, h1, h2', h3, h4]
  · intro h1 h2 hn1 hn2 hs1 hs2
    have h2' : ¬ dec > TokenBDB.MAX_DECIMALS := by
      simp only [TokenBDB.MAX_DECIMALS]
      omega
    have h3 : ¬ (nm.length = 0 ∨ nm.length > TokenBDB.MAX_NAME_LENGTH) := by
      simp only [TokenBDB.MAX_NAME_LENGTH]
      omega
    have h4 : ¬ (sym.length = 0 ∨ sym.length > TokenBDB.MAX_SYMBOL_LENGTH) := by
      simp only [TokenBDB.MAX_SYMBOL_LENGTH]
      omega
    simp [TokenBDB.initialize_, h1, h2', h3, h4]

/-- Concrete instance of C4: initializing the fresh ledger succeeds with
the expected persisted metadata. -/
theorem C4_initialize_spec_witness :
    TokenBDB.initialize_ Ledger.empty 0 "Token" "TKN" 7 =
      (.ok (),
        { Ledger.empty with
          admin := some 0
          tokenName := some "Token"
          tokenSymbol := some "TKN"
          decimals := some 7
          totalSupply := some 0
          initialized := true }) :=
  (C4_initialize_spec Ledger.empty 0 "Token" "TKN" 7).2.2.2 rfl (by decide) (by decide)
    (by decide) (by decide) (by decide)

/-- C5: a successful transfer_from decreases the allowance of
(owner, spender) by exactly the amount, pruning the record when it reaches
zero; and when the allowance is insufficient the call fails with
`InsufficientAllowance` before the balance is even considered (after the
amount and recipient checks). -/
theorem C5_transfer_from_allowance (s : Ledger) (sp o t : Addr) (amt : Int) :
    ((TokenBDB.transfer_from s sp o t amt).1 = .ok () →
      TokenBDB.allowance (TokenBDB.transfer_from s sp o t amt).2 o sp =
        TokenBDB.allowance s o sp - amt ∧
      (TokenBDB.allowance s o sp - amt = 0 →
        mhas (TokenBDB.transfer_from s sp o t amt).2.allowances (o, sp) = false)) ∧
    (s.initialized = true → 0 < amt → o ≠ t → TokenBDB.allowance s o sp < amt →
      TokenBDB.transfer_from s sp o t amt = (.error .InsufficientAllowance, s)) := by
  constructor
  · intro h
    obtain ⟨_, _, _, _, _, heq⟩ := transfer_from_ok_state s sp o t amt h
    rw [congrArg Prod.snd heq]
    constructor
    · show mget (if TokenBDB.allowance s o sp - amt = 0 then mdel s.allowances (o, sp)
        else mset s.allowances (o, sp) (TokenBDB.allowance s o sp - amt)) (o, sp) = _
      by_cases h7 : TokenBDB.allowance s o sp - amt = 0
      · rw [if_pos h7, mget_mdel, if_pos rfl]
        omega
      · rw [if_neg h7, mget_mset, if_pos rfl]
    · intro h7
      show mhas (if TokenBDB.allowance s o sp - amt = 0 then mdel s.allowances (o, sp)
        else mset s.allowances (o, sp) (TokenBDB.allowance s o sp - amt)) (o, sp) = false
      rw [if_pos h7]
      exact mhas_mdel_self _ _
  · intro h1 h2 h3 h4
    have h2' : ¬ amt ≤ 0 := by omega
    simp [TokenBDB.transfer_from, h1, h2', h3, h4]

/-- Concrete instance of C5: spending the whole 500 allowance prunes the
record. -/
theorem C5_transfer_from_allowance_witness :
    TokenBDB.allowance (TokenBDB.transfer_from demoLedger 2 1 3 500).2 1 2 =
      TokenBDB.allowance demoLedger 1 2 - 500 ∧
    mhas (TokenBDB.transfer_from demoLedger 2 1 3 500).2.allowances (1, 2) = false :=
  ⟨((C5_transfer_from_allowance demoLedger 2 1 3 500).1 (by decide)).1,
   ((C5_transfer_from_allowance demoLedger 2 1 3 500).1 (by decide)).2 (by decide)⟩

/-- C6: a successful transfer moves exactly the amount from the sender to
the recipient and changes neither the supply counter nor any third
account's balance. -/
theorem C6_transfer_conservation (s : Ledger) (o t : Addr) (amt : Int)
    (hinit : s.initialized = true) (h : (TokenBDB.transfer s o t amt).1 = .ok ()) :
    TokenBDB.balance (TokenBDB.transfer s o t amt).2 o = TokenBDB.balance s o - amt ∧
    TokenBDB.balance (TokenBDB.transfer s o t amt).2 t = TokenBDB.balance s t + amt ∧
    TokenBDB.total_supply (TokenBDB.transfer s o t amt).2 = TokenBDB.total_supply s ∧
    ∀ c : Addr, c ≠ o → c ≠ t →
      TokenBDB.balance (TokenBDB.transfer s o t amt).2 c = TokenBDB.balance s c := by
  obtain ⟨_, h2, h3, h4, heq⟩ := transfer_ok_state s o t amt h
  rw [congrArg Prod.snd heq]
  refine ⟨?_, ?_, rfl, ?_⟩
  · show mget (mset (if TokenBDB.balance s o - amt = 0 then mdel s.balances o
      else mset s.balances o (TokenBDB.balance s o - amt)) t (TokenBDB.balance s t + amt)) o = _
    rw [mget_mset, if_neg (fun e => h3 e.symm)]
    by_cases h5 : TokenBDB.balance s o - amt = 0
    · rw [if_pos h5, mget_mdel, if_pos rfl]
      omega
    · rw [if_neg h5, mget_mset, if_pos rfl]
  · show mget (mset (if TokenBDB.balance s o - amt = 0 then mdel s.balances o
      else mset s.balances o (TokenBDB.balance s o - amt)) t (TokenBDB.balance s t + amt)) t = _
    rw [mget_mset, if_pos rfl]
  · intro c hco hct
    show mget (mset (if TokenBDB.balance s o - amt = 0 then mdel s.balances o
      else mset s.balances o (TokenBDB.balance s o - amt)) t (TokenBDB.balance s t + amt)) c = _
    rw [mget_mset, if_neg (fun e => hct e.symm)]
    by_cases h5 : TokenBDB.balance s o - amt = 0
    · rw [if_pos h5, mget_mdel, if_neg hco]
      rfl
    · rw [if_neg h5, mget_mset, if_neg (fun e => hco e.symm)]
      rfl

/-- Concrete instance of C6: transferring 100 from account 1 to account 2
on the demo ledger. -/
theorem C6_transfer_conservation_witness :
    TokenBDB.balance (TokenBDB.transfer demoLedger 1 2 100).2 1 =
      TokenBDB.balance demoLedger 1 - 100 ∧
    TokenBDB.balance (TokenBDB.transfer demoLedger 1 2 100).2 2 =
      TokenBDB.balance demoLedger 2 + 100 ∧
    TokenBDB.total_supply (TokenBDB.transfer demoLedger 1 2 100).2 =
      TokenBDB.total_supply demoLedger ∧
    TokenBDB.balance (TokenBDB.transfer demoLedger 1 2 100).2 7 =
      TokenBDB.balance demoLedger 7 := by
  have hc := C6_transfer_conservation demoLedger 1 2 100 rfl (by decide)
  exact ⟨hc.1, hc.2.1, hc.2.2.1, hc.2.2.2 7 (by decide) (by decide)⟩

/-- C7: a successful mint immediately undone by a successful burn of the
same amount restores the recipient's balance and the supply counter. -/
theorem C7_mint_burn_roundtrip (s : Ledger) (t : Addr) (x : Int)
    (h1 : (TokenBDB.mint s t x).1 = .ok ())
    (h2 : (TokenBDB.burn (TokenBDB.mint s t x).2 t x).1 = .ok ()) :
    TokenBDB.balance (TokenBDB.burn (TokenBDB.mint s t x).2 t x).2 t =
      TokenBDB.balance s t ∧
    TokenBDB.total_supply (TokenBDB.burn (TokenBDB.mint s t x).2 t x).2 =
      TokenBDB.total_supply s := by
  obtain ⟨_, hx, heq1⟩ := mint_ok_state s t x h1
  have hs1 := congrArg Prod.snd heq1
  obtain ⟨_, _, _, heq2⟩ := burn_ok_state (TokenBDB.mint s t x).2 t x h2
  rw [congrArg Prod.snd heq2]
  have hb1 : TokenBDB.balance (TokenBDB.mint s t x).2 t = TokenBDB.balance s t + x := by
    rw [hs1]
    show mget (mset s.balances t (TokenBDB.balance s t + x)) t = _
    rw [mget_mset, if_pos rfl]
  have ht1 : (TokenBDB.mint s t x).2.totalSupply = some (s.totalSupply.getD 0 + x) := by
    rw [hs1]
  constructor
  · show mget (if TokenBDB.balance (TokenBDB.mint s t x).2 t - x = 0
      then mdel (TokenBDB.mint s t x).2.balances t
      else mset (TokenBDB.mint s t x).2.balances t
        (TokenBDB.balance (TokenBDB.mint s t x).2 t - x)) t = TokenBDB.balance s t
    by_cases hz : TokenBDB.balance (TokenBDB.mint s t x).2 t - x = 0
    · rw [if_pos hz, mget_mdel, if_pos rfl]
      rw [hb1] at hz
      omega
    · rw [if_neg hz, mget_mset, if_pos rfl, hb1]
      ring
  · show (some ((TokenBDB.mint s t x).2.totalSupply.getD 0 - x)).getD 0 =
      TokenBDB.total_supply s
    rw [ht1]
    simp [TokenBDB.total_supply]

/-- Concrete instance of C7: mint 50 to account 3 then burn 50. -/
theorem C7_mint_burn_roundtrip_witness :
    TokenBDB.balance (TokenBDB.burn (TokenBDB.mint demoLedger 3 50).2 3 50).2 3 =
      TokenBDB.balance demoLedger 3 ∧
    TokenBDB.total_supply (TokenBDB.burn (TokenBDB.mint demoLedger 3 50).2 3 50).2 =
      TokenBDB.total_supply demoLedger :=
  C7_mint_burn_roundtrip demoLedger 3 50 (by decide) (by decide)

/-- C8: every read operation is total and defaults to the zero value:
`name`, `symbol` and `decimals` return the stored metadata once
initialized and the zero value before; `balance` and `allowance` return
the stored record value, or 0 when no record exists, in every state. -/
theorem C8_getters_total (s : Ledger) (a o sp : Addr) :
    (s.initialized = false →
      TokenBDB.name s = "" ∧ TokenBDB.symbol s = "" ∧ TokenBDB.decimals s = 0) ∧
    (s.initialized = true →
      (∀ nm, s.tokenName = some nm → TokenBDB.name s = nm) ∧
      (∀ sym, s.tokenSymbol = some sym → TokenBDB.symbol s = sym) ∧
      (∀ d, s.decimals = some d → TokenBDB.decimals s = d)) ∧
    (mlookup s.balances a = none → TokenBDB.balance s a = 0) ∧
    (∀ v, mlookup s.balances a = some v → TokenBDB.balance s a = v) ∧
    (mlookup s.allowances (o, sp) = none → TokenBDB.allowance s o sp = 0) ∧
    (∀ v, mlookup s.allowances (o, sp) = some v → TokenBDB.allowance s o sp = v) := by
  refine ⟨?_, ?_, ?_, ?_, ?_, ?_⟩
  · intro h0
    simp [TokenBDB.name, TokenBDB.symbol, TokenBDB.decimals, h0]
  · intro h1
    refine ⟨?_, ?_, ?_⟩
    · intro nm hnm
      simp [TokenBDB.name, h1, hnm]
    · intro sym hsym
      simp [TokenBDB.symbol, h1, hsym]
    · intro d hd
      simp [TokenBDB.decimals, h1, hd]
  · intro hl
    simp [TokenBDB.balance, mget, hl]
  · intro v hl
    simp [TokenBDB.balance, mget, hl]
  · intro hl
    simp [TokenBDB.allowance, mget, hl]
  · intro v hl
    simp [TokenBDB.allowance, mget, hl]

/-- Concrete instance of C8: the fresh ledger answers every getter with
the zero value. -/
theorem C8_getters_total_witness :
    (TokenBDB.name Ledger.empty = "" ∧ TokenBDB.symbol Ledger.empty = "" ∧
      TokenBDB.decimals Ledger.empty = 0) ∧
    TokenBDB.balance Ledger.empty 9 = 0 ∧ TokenBDB.allowance Ledger.empty 9 9 = 0 :=
  ⟨(C8_getters_total Ledger.empty 9 9 9).1 rfl,
   (C8_getters_total Ledger.empty 9 9 9).2.2.1 rfl,
   (C8_getters_total Ledger.empty 9 9 9).2.2.2.2.1 rfl⟩

/-- C9: starting from the fresh ledger, `admin` aborts fatally (the
`.expect` panic, modelled as `none`, not a declared error code) exactly as
long as no initialization call has succeeded, and returns the stored admin
identity afterwards. -/
theorem C9_admin_fatal_before_init (cs : List OpCall) :
    (initSucceeded Ledger.empty cs = false →
      TokenBDB.admin (runTrace Ledger.empty cs) = none) ∧
    (initSucceeded Ledger.empty cs = true →
      TokenBDB.admin (runTrace Ledger.empty cs) = (runTrace Ledger.empty cs).admin ∧
      (runTrace Ledger.empty cs).admin.isSome = true) := by
  have hflag := runTrace_initialized Ledger.empty cs
  have hinv : LedgerInv (runTrace Ledger.empty cs) := Inv_runTrace Inv_empty cs
  constructor
  · intro h0
    have hf : (runTrace Ledger.empty cs).initialized = false := by
      rw [hflag, h0]
      simp [Ledger.empty]
    exact (hinv.uninit hf).2.2.2
  · intro h1
    have hf : (runTrace Ledger.empty cs).initialized = true := by
      rw [hflag, h1]
      simp
    exact ⟨rfl, hinv.admin_some hf⟩

/-- Concrete instance of C9: with no calls at all, `admin` hits the fatal
path. -/
theorem C9_admin_fatal_before_init_witness :
    TokenBDB.admin (runTrace Ledger.empty []) = none :=
  (C9_admin_fatal_before_init []).1 rfl

/-- C10: on an initialized ledger, `approve(o, s, 0)` succeeds, leaves
allowance 0 with no stored record, and running it a second time commits
exactly the same ledger state. -/
theorem C10_approve_zero_idempotent (s : Ledger) (o sp : Addr)
    (hinit : s.initialized = true) :
    (TokenBDB.approve s o sp 0).1 = .ok () ∧
    TokenBDB.allowance (TokenBDB.approve s o sp 0).2 o sp = 0 ∧
    mhas (TokenBDB.approve s o sp 0).2.allowances (o, sp) = false ∧
    TokenBDB.approve (TokenBDB.approve s o sp 0).2 o sp 0 =
      (.ok (), (TokenBDB.approve s o sp 0).2) := by
  have he : TokenBDB.approve s o sp 0 =
      (.ok (), { s with allowances := mdel s.allowances (o, sp) }) := by
    unfold TokenBDB.approve
    simp [hinit]
  rw [he]
  refine ⟨rfl, ?_, ?_, ?_⟩
  · show mget (mdel s.allowances (o, sp)) (o, sp) = 0
    rw [mget_mdel, if_pos rfl]
  · exact mhas_mdel_self _ _
  · unfold TokenBDB.approve
    simp [hinit, mdel_mdel]

/-- Concrete instance of C10 on the demo ledger. -/
theorem C10_approve_zero_idempotent_witness :
    (TokenBDB.approve demoLedger 1 2 0).1 = .ok () ∧
    TokenBDB.allowance (TokenBDB.approve demoLedger 1 2 0).2 1 2 = 0 ∧
    mhas (TokenBDB.approve demoLedger 1 2 0).2.allowances (1, 2) = false ∧
    TokenBDB.approve (TokenBDB.approve demoLedger 1 2 0).2 1 2 0 =
      (.ok (), (TokenBDB.approve demoLedger 1 2 0).2) :=
  C10_approve_zero_idempotent demoLedger 1 2 rfl
